import Mathlib

/-!
Shallow embedding of the ELECTRA pretraining core of this repository
(`model/electra.py`, based on lucidrains/electra-pytorch) and proofs about it.

Modelling conventions:
* a batch row of token ids is a `List ℕ`; boolean tensors are `List Bool`;
  float tensors are `List ℚ` where only ordering/arithmetic on draws matters
  (the masking engine) and `List ℝ` where transcendental functions appear
  (losses, logits);
* every random draw made by the code (`torch.rand`, Bernoulli masks,
  `torch.randint`, Gumbel noise) is an explicit parameter, so each function is
  a deterministic function of the input and the sampled randomness;
* `torch.topk` returns the `k` largest values together with their indices in
  descending value order; its tie order between equal values is unspecified,
  and is embedded here with a deterministic tie-break (lower index first).
-/

/-- Count of `true` entries of a boolean row (`mask.sum(dim=-1)`). -/
def countTrue (xs : List Bool) : ℕ := xs.count true

/-- Inclusive running sum of a boolean row starting from `acc`
(`mask.cumsum(dim=-1)`). -/
def cumsumFrom (acc : ℕ) : List Bool → List ℕ
  | [] => []
  | b :: bs => (acc + (if b then 1 else 0)) :: cumsumFrom (acc + (if b then 1 else 0)) bs

/-- Inclusive running sum of a boolean row (`mask.cumsum(dim=-1)`). -/
def cumsumBool (xs : List Bool) : List ℕ := cumsumFrom 0 xs

/-- Insert into a list sorted by the boolean comparison `le`. -/
def insBy (le : α → α → Bool) (x : α) : List α → List α
  | [] => [x]
  | y :: ys => if le x y then x :: y :: ys else y :: insBy le x ys

/-- Insertion sort by the boolean comparison `le`. -/
def insSortBy (le : α → α → Bool) : List α → List α
  | [] => []
  | x :: xs => insBy le x (insSortBy le xs)

/-- Comparison used to embed `torch.topk`: larger value first, ties broken by
lower index first (the tie order of `topk` between equal values is
unspecified; the tie-break is not load-bearing). -/
def topkLe (p q : ℕ × ℚ) : Bool :=
  decide (q.2 < p.2) || (decide (p.2 = q.2) && decide (p.1 ≤ q.1))

/-- `torch.topk(xs, k).indices` for a row: indices of the `k` largest entries,
in descending value order. -/
def topkIndices (xs : List ℚ) (k : ℕ) : List ℕ :=
  ((insSortBy topkLe xs.enum).map Prod.fst).take k

/-- `mask_with_tokens(t, token_ids)`: fold of `acc | (t == el)` over the id
set, starting from all-`False` (`functools.reduce` in the source). -/
def maskWithTokens (t : List ℕ) (tokenIds : List ℕ) : List Bool :=
  tokenIds.foldl
    (fun acc el => List.zipWith (fun a b => a || b) acc (t.map (fun x => x == el)))
    (t.map (fun _ => false))

/-- `get_mask_subset_with_prob(mask, prob)` on one row, with the values of the
`torch.rand((batch, seq_len))` draw for this row passed in as `rand`:
* `max_masked = math.ceil(prob * seq_len)`;
* `mask_excess = (mask.cumsum(-1) > (mask.sum(-1) * prob).ceil())[:max_masked]`;
* `rand.masked_fill(~mask, -1e9)`, take `topk(max_masked)` indices;
* shift indices by one, zero the ranks flagged by `mask_excess`;
* scatter ones into a `seq_len + 1` row of zeros and drop column 0. -/
def getMaskSubsetWithProbRow (mask : List Bool) (prob : ℚ) (rand : List ℚ) : List Bool :=
  let seqLen := mask.length
  let maxMasked := (Int.ceil (prob * (seqLen : ℚ))).toNat
  let numTokens := countTrue mask
  let excessCut :=
    ((cumsumBool mask).map
      (fun c => decide (((Int.ceil ((numTokens : ℚ) * prob) : ℤ) : ℚ) < (c : ℚ)))).take maxMasked
  let randFilled := List.zipWith (fun m r => if m then r else -(10 ^ 9 : ℚ)) mask rand
  let sampledIndices := topkIndices randFilled maxMasked
  let shifted := List.zipWith (fun e i => if e then 0 else i + 1) excessCut sampledIndices
  (List.range seqLen).map (fun j => decide ((j + 1) ∈ shifted))

/-- Configuration state fixed by `Electra.__init__`.  Weights and temperature
are kept as rationals standing for the Python floats. -/
structure ElectraConfig where
  numTokens : Option ℕ
  maskProb : ℚ
  replaceProb : ℚ
  randomTokenProb : ℚ
  maskTokenId : ℕ
  padTokenId : ℕ
  maskIgnoreTokenIds : List ℕ
  discWeight : ℚ
  genWeight : ℚ
  temperature : ℚ
  deriving DecidableEq

/-- `Electra.__init__`: stores the options and forces the pad token into the
ignore set (`set([*mask_ignore_token_ids, pad_token_id])`; the Python set is
modelled as a list used only through membership). -/
def electraInit (numTokens : Option ℕ) (maskProb replaceProb randomTokenProb : ℚ)
    (maskTokenId padTokenId : ℕ) (maskIgnoreTokenIds : List ℕ)
    (discWeight genWeight temperature : ℚ) : ElectraConfig :=
  ⟨numTokens, maskProb, replaceProb, randomTokenProb, maskTokenId, padTokenId,
    maskIgnoreTokenIds ++ [padTokenId], discWeight, genWeight, temperature⟩

/-- The mask computed at the top of `Electra.forward` for one row:
`no_mask = mask_with_tokens(input, self.mask_ignore_token_ids)` followed by
`mask = get_mask_subset_with_prob(~no_mask, self.mask_prob)`. -/
def electraMaskRow (cfg : ElectraConfig) (input : List ℕ) (rand : List ℚ) : List Bool :=
  getMaskSubsetWithProbRow
    ((maskWithTokens input cfg.maskIgnoreTokenIds).map (fun b => !b))
    cfg.maskProb rand

/-- An `Electra` built with the constructor defaults
(`mask_prob=0.15, replace_prob=0.85, random_token_prob=0, mask_token_id=4,
pad_token_id=0, mask_ignore_token_ids=[], disc_weight=50, gen_weight=1,
temperature=1`). -/
def defaultElectraCfg : ElectraConfig :=
  electraInit none (15 / 100) (85 / 100) 0 4 0 [] 50 1 1

/-- Claim C1: `get_mask_subset_with_prob(E, p)` is claimed to return a subset
of the eligibility `E` whose rows are all-false where `E` is all-false.  The
code violates this: on the all-false eligibility row of length 4 with
`p = 1/2` (the `torch.rand` draw being all zeros, a legal draw), every entry
of `mask_excess` is false (the row's cumulative eligible count is constantly
0, never strictly above `ceil(0 * p) = 0`), so none of the
`ceil(1/2 * 4) = 2` top-k ranks is cancelled and two ineligible positions are
returned as true: the result is neither a subset of the eligibility nor
all-false. -/
theorem c1_mask_not_subset_of_eligibility :
    getMaskSubsetWithProbRow [false, false, false, false] (1 / 2) [0, 0, 0, 0]
      = [true, true, false, false] := by decide!

/-- Claim C2: positions holding the pad token are claimed never to be selected
by the masking step of `Electra.forward`.  The code violates this: with the
default configuration and the all-pad input `[0,0,0,0]`, the computed mask is
`[true,false,false,false]`, selecting a pad position (the first conjunct), even
though position 0 holds the pad token (the second conjunct). -/
theorem c2_pad_position_selected_by_mask :
    electraMaskRow defaultElectraCfg [0, 0, 0, 0] [0, 0, 0, 0]
        = [true, false, false, false]
      ∧ List.getD [0, 0, 0, 0] 0 1 = defaultElectraCfg.padTokenId := by
  constructor
  · decide!
  · decide

/-! ### Generic list lemmas used to reason pointwise about tensor operations -/

/-- `getD` through `List.map`, inside the range. -/
theorem getD_map_of_lt (f : α → β) (xs : List α) (i : ℕ) (d : β) (da : α)
    (hi : i < xs.length) : (xs.map f).getD i d = f (xs.getD i da) := by
  induction xs generalizing i with
  | nil => simp at hi
  | cons x xs ih =>
    cases i with
    | zero => rfl
    | succ n => simpa using ih n (by simpa using hi)

/-- `getD` through `List.zipWith`, inside the range of both lists. -/
theorem getD_zipWith_of_lt (f : α → β → γ) (xs : List α) (ys : List β) (i : ℕ)
    (d : γ) (da : α) (db : β) (hx : i < xs.length) (hy : i < ys.length) :
    (List.zipWith f xs ys).getD i d = f (xs.getD i da) (ys.getD i db) := by
  induction xs generalizing ys i with
  | nil => simp at hx
  | cons x xs ih =>
    cases ys with
    | nil => simp at hy
    | cons y ys =>
      cases i with
      | zero => rfl
      | succ n => simpa using ih ys n (by simpa using hx) (by simpa using hy)

/-- Fusion of two `zipWith`s over the same right list, the inner one through a
`map`. -/
theorem zipWith_zipWith_map (F : γ → β → δ) (G : α → ε → γ) (m : β → ε) :
    ∀ (acc : List α) (t : List β),
      List.zipWith F (List.zipWith G acc (t.map m)) t
        = List.zipWith (fun a x => F (G a (m x)) x) acc t := by
  intro acc
  induction acc with
  | nil => intro t; rfl
  | cons a as ih =>
    intro t
    cases t with
    | nil => rfl
    | cons x ts => simpa using ih ts

/-- Pointwise congruence for `zipWith`. -/
theorem zipWith_congr_fun (f g : α → β → γ) (h : ∀ a b, f a b = g a b) :
    ∀ (xs : List α) (ys : List β), List.zipWith f xs ys = List.zipWith g xs ys := by
  intro xs
  induction xs with
  | nil => intro ys; rfl
  | cons x xs ih =>
    intro ys
    cases ys with
    | nil => rfl
    | cons y ys => simp [h, ih ys]

/-- `zipWith` that ignores its right argument is the left list (for lists of
equal length). -/
theorem zipWith_fst_eq_left :
    ∀ (xs : List α) (ys : List β), xs.length = ys.length →
      List.zipWith (fun a _ => a) xs ys = xs := by
  intro xs
  induction xs with
  | nil => intro ys _; rfl
  | cons x xs ih =>
    intro ys h
    cases ys with
    | nil => simp at h
    | cons y ys => simpa using ih ys (by simpa using h)

/-! ### Characterisation of `mask_with_tokens` -/

/-- Invariant of the `reduce` in `mask_with_tokens`: folding `acc | (t == el)`
over the id list ORs the membership indicator into the accumulator. -/
theorem maskWithTokens_foldl (t : List ℕ) :
    ∀ (ids : List ℕ) (acc : List Bool), acc.length = t.length →
      ids.foldl
          (fun acc el => List.zipWith (fun a b => a || b) acc (t.map (fun x => x == el)))
          acc
        = List.zipWith (fun a x => a || decide (x ∈ ids)) acc t := by
  intro ids
  induction ids with
  | nil =>
    intro acc h
    simp only [List.foldl_nil]
    rw [show (fun (a : Bool) (x : ℕ) => a || decide (x ∈ ([] : List ℕ)))
          = (fun (a : Bool) (_ : ℕ) => a) by funext a x; simp]
    exact (zipWith_fst_eq_left acc t h).symm
  | cons e es ih =>
    intro acc h
    simp only [List.foldl_cons]
    rw [ih _ (by simp [h])]
    rw [zipWith_zipWith_map (fun a x => a || decide (x ∈ es)) (fun a b => a || b)
      (fun x => x == e) acc t]
    refine zipWith_congr_fun _ _ ?_ acc t
    intro a x
    by_cases hx : x = e
    · simp [hx]
    · have hb : (x == e) = false := by simpa using hx
      simp [hx, hb, List.mem_cons]

/-- `mask_with_tokens(t, ids)` marks exactly the positions of `t` holding an
id of `ids`. -/
theorem maskWithTokens_eq (t : List ℕ) (ids : List ℕ) :
    maskWithTokens t ids = t.map (fun x => decide (x ∈ ids)) := by
  unfold maskWithTokens
  rw [maskWithTokens_foldl t ids (t.map (fun _ => false)) (by simp)]
  rw [List.zipWith_map_left]
  have : ∀ (u : List ℕ),
      List.zipWith (fun (_ : ℕ) x => false || decide (x ∈ ids)) u u
        = u.map (fun x => decide (x ∈ ids)) := by
    intro u
    induction u with
    | nil => rfl
    | cons a as ih => simpa using ih
  simpa using this t

/-- Length of `mask_with_tokens(t, ids)`. -/
theorem maskWithTokens_length (t : List ℕ) (ids : List ℕ) :
    (maskWithTokens t ids).length = t.length := by
  rw [maskWithTokens_eq]; simp

/-! ### Corruption sampler (`Electra.forward`, lines 179-196) -/

/-- Advanced-indexing assignment `dst[sel] = src[sel]`: overwrite `dst`
pointwise with `src` where `sel` is true. -/
def applyWhere : List Bool → List ℕ → List ℕ → List ℕ
  | s :: ss, a :: ta, d :: ds => (if s then a else d) :: applyWhere ss ta ds
  | _, _, ds => ds

/-- Length of `applyWhere` for shape-matched tensors. -/
theorem applyWhere_length :
    ∀ (ss : List Bool) (ta ds : List ℕ), ss.length = ds.length →
      ta.length = ds.length → (applyWhere ss ta ds).length = ds.length := by
  intro ss
  induction ss with
  | nil =>
    intro ta ds h1 _
    cases ds with
    | nil => cases ta <;> rfl
    | cons d ds => simp at h1
  | cons s ss ih =>
    intro ta ds h1 h2
    cases ds with
    | nil => simp at h1
    | cons d ds =>
      cases ta with
      | nil => simp at h2
      | cons a ta =>
        simpa [applyWhere] using ih ta ds (by simpa using h1) (by simpa using h2)

/-- Pointwise reading of `applyWhere` for shape-matched tensors. -/
theorem applyWhere_getD :
    ∀ (ss : List Bool) (ta ds : List ℕ), ss.length = ds.length →
      ta.length = ds.length → ∀ (i : ℕ) (d : ℕ),
      (applyWhere ss ta ds).getD i d
        = if ss.getD i false = true then ta.getD i d else ds.getD i d := by
  intro ss
  induction ss with
  | nil =>
    intro ta ds h1 _ i d
    cases ds with
    | nil => cases ta <;> simp [applyWhere]
    | cons x xs => simp at h1
  | cons s ss ih =>
    intro ta ds h1 h2 i d
    cases ds with
    | nil => simp at h1
    | cons x ds =>
      cases ta with
      | nil => simp at h2
      | cons a ta =>
        cases i with
        | zero => simp [applyWhere]
        | succ n =>
          simpa [applyWhere] using
            ih ta ds (by simpa using h1) (by simpa using h2) n d

/-- The random-token substitution block of `Electra.forward` (executed when
`random_token_prob > 0`), with the Bernoulli draw
(`prob_mask_like(input, random_token_prob)`) and the drawn tokens
(`torch.randint(0, num_tokens, input.shape)`) passed in:
`random_no_mask = mask_with_tokens(random_tokens, mask_ignore_token_ids)`,
`random_token_prob &= ~random_no_mask`, and
`masked_input[random_indices] = random_tokens[random_indices]`. -/
def randomSubstitute (cfg : ElectraConfig) (maskedInput : List ℕ)
    (randomBern : List Bool) (randomTokens : List ℕ) : List ℕ :=
  let randomNoMask := maskWithTokens randomTokens cfg.maskIgnoreTokenIds
  let rtp := List.zipWith (fun b nm => b && !nm) randomBern randomNoMask
  applyWhere rtp randomTokens maskedInput

/-- `masked_fill(m, v)` on a row of token ids. -/
def maskedFillL (t : List ℕ) (m : List Bool) (v : ℕ) : List ℕ :=
  List.zipWith (fun x b => if b then v else x) t m

/-- The corrupted generator input `masked_input` built by `Electra.forward`:
a detached copy of `input`, randomly substituted when
`random_token_prob > 0`, then `masked_fill(mask * replace_prob,
mask_token_id)` (with `replace_prob` the per-position Bernoulli draw
`prob_mask_like(input, self.replace_prob)`). -/
def corruptRow (cfg : ElectraConfig) (input : List ℕ)
    (mask replaceBern randomBern : List Bool) (randomTokens : List ℕ) : List ℕ :=
  let maskedInput := input
  let maskedInput :=
    if 0 < cfg.randomTokenProb then
      randomSubstitute cfg maskedInput randomBern randomTokens
    else maskedInput
  maskedFillL maskedInput (List.zipWith (fun a b => a && b) mask replaceBern)
    cfg.maskTokenId

/-- Generator labels `gen_labels = input.masked_fill(~mask, pad_token_id)`
(line 196 of the source). -/
def genLabels (input : List ℕ) (mask : List Bool) (pad : ℕ) : List ℕ :=
  maskedFillL input (mask.map (fun b => !b)) pad

/-- Pointwise reading of the random-token substitution. -/
theorem randomSubstitute_getD (cfg : ElectraConfig) (mi : List ℕ)
    (rb : List Bool) (rts : List ℕ) (h1 : rb.length = mi.length)
    (h2 : rts.length = mi.length) (i : ℕ) (hi : i < mi.length) (d : ℕ) :
    (randomSubstitute cfg mi rb rts).getD i d
      = if (rb.getD i false && !(decide (rts.getD i 0 ∈ cfg.maskIgnoreTokenIds))) = true
        then rts.getD i d else mi.getD i d := by
  unfold randomSubstitute
  rw [applyWhere_getD _ _ _
    (by simp [maskWithTokens_length, h1, h2])
    h2 i d]
  rw [getD_zipWith_of_lt _ _ _ i false false false (by omega)
    (by rw [maskWithTokens_length]; omega)]
  rw [maskWithTokens_eq]
  rw [getD_map_of_lt _ _ i false 0 (by omega)]

/-- Pointwise reading of the corrupted generator input: the mask-token fill
happens last, then (when `random_token_prob > 0`) the random substitution,
and otherwise the original token survives. -/
theorem corruptRow_getD (cfg : ElectraConfig) (input : List ℕ)
    (mask replaceBern randomBern : List Bool) (randomTokens : List ℕ)
    (h1 : mask.length = input.length) (h2 : replaceBern.length = input.length)
    (h3 : randomBern.length = input.length)
    (h4 : randomTokens.length = input.length) (i : ℕ) (hi : i < input.length)
    (d : ℕ) :
    (corruptRow cfg input mask replaceBern randomBern randomTokens).getD i d
      = if (mask.getD i false && replaceBern.getD i false) = true
        then cfg.maskTokenId
        else if 0 < cfg.randomTokenProb
            ∧ (randomBern.getD i false
                && !(decide (randomTokens.getD i 0 ∈ cfg.maskIgnoreTokenIds))) = true
          then randomTokens.getD i d
          else input.getD i d := by
  unfold corruptRow maskedFillL
  by_cases hrp : 0 < cfg.randomTokenProb
  · simp only [hrp, if_true, true_and]
    have hlen : (randomSubstitute cfg input randomBern randomTokens).length
        = input.length := by
      unfold randomSubstitute
      exact applyWhere_length _ _ _
        (by simp [maskWithTokens_length, h3, h4]) h4
    rw [getD_zipWith_of_lt _ _ _ i d d false (by omega)
      (by simp; omega)]
    rw [getD_zipWith_of_lt _ _ _ i false false false (by omega) (by omega)]
    rw [randomSubstitute_getD cfg input randomBern randomTokens h3 h4 i hi d]
  · simp only [hrp, if_false, false_and]
    rw [getD_zipWith_of_lt _ _ _ i d d false (by omega) (by simp; omega)]
    rw [getD_zipWith_of_lt _ _ _ i false false false (by omega) (by omega)]

/-- An `Electra` with `random_token_prob = 0.1` and a vocabulary size, other
options at their constructor defaults. -/
def randomSubCfg : ElectraConfig :=
  electraInit (some 100) (15 / 100) (85 / 100) (1 / 10) 4 0 [] 50 1 1

/-- Claim C3 counterexample: the code restricts random-token substitution by
the DRAWN token, not by the token originally at the position.  With
`random_token_prob > 0`, a position holding the pad token 0 (which is in the
ignore set) whose Bernoulli draw is true and whose drawn token is 7 (not
special) IS overwritten with the random token 7, contradicting the claim that
such a position is never overwritten. -/
theorem c3_pad_position_overwritten_by_random_token :
    (0 : ℕ) ∈ randomSubCfg.maskIgnoreTokenIds
      ∧ randomSubstitute randomSubCfg [0] [true] [7] = [7] := by decide

/-- Claim C3, amended: random-token substitution is restricted by the drawn
random token, not by the position's original token: whenever a position is
changed by the substitution, its Bernoulli draw was true, the token drawn for
it is NOT pad/ignored, and the position now holds that drawn token.  (A
position whose drawn token is special is never overwritten; a position whose
original token is special may be.) -/
theorem c3_random_substitution_restricted_by_drawn_token (cfg : ElectraConfig)
    (mi : List ℕ) (rb : List Bool) (rts : List ℕ)
    (h1 : rb.length = mi.length) (h2 : rts.length = mi.length)
    (i : ℕ) (hi : i < mi.length)
    (hch : (randomSubstitute cfg mi rb rts).getD i 0 ≠ mi.getD i 0) :
    rb.getD i false = true ∧ rts.getD i 0 ∉ cfg.maskIgnoreTokenIds
      ∧ (randomSubstitute cfg mi rb rts).getD i 0 = rts.getD i 0 := by
  rw [randomSubstitute_getD cfg mi rb rts h1 h2 i hi 0] at hch ⊢
  by_cases hc : (rb.getD i false
      && !(decide (rts.getD i 0 ∈ cfg.maskIgnoreTokenIds))) = true
  · rw [if_pos hc]
    have hand := Bool.and_eq_true_iff.mp hc
    refine ⟨hand.1, ?_, rfl⟩
    have := hand.2
    simpa using this
  · rw [if_neg hc] at hch
    exact absurd rfl hch

/-- Witness for the amended C3 theorem at a concrete input: position 0 holds
token 5, the Bernoulli draw is true and the drawn token 3 is not ignored, so
the position is changed and all three conclusions evaluate. -/
theorem c3_random_substitution_restricted_witness :
    List.getD [true] 0 false = true
      ∧ (3 : ℕ) ∉ randomSubCfg.maskIgnoreTokenIds
      ∧ (randomSubstitute randomSubCfg [5] [true] [3]).getD 0 0
          = List.getD [3] 0 0 :=
  c3_random_substitution_restricted_by_drawn_token randomSubCfg [5] [true] [3]
    rfl rfl 0 (by decide) (by decide)

/-- Claim C4 counterexample: with `random_token_prob > 0`, a position where
the mask is true but the replace draw is false can still be changed: the
random-token substitution (drawn true, drawn token 7 not special) overwrites
the original token 5, so the corrupted input does not hold the original
token. -/
theorem c4_masked_kept_position_changed_by_random_token :
    List.getD [true] 0 false = true ∧ List.getD [false] 0 false = false
      ∧ (corruptRow randomSubCfg [5] [true] [false] [true] [7]).getD 0 0
          ≠ List.getD [5] 0 0 := by decide!

/-- Claim C4, amended: a position where the mask is true and the replace draw
is false holds the original input token PROVIDED random-token substitution did
not fire there — always when `random_token_prob = 0`, and otherwise when the
position's random Bernoulli draw is false or its drawn token is special. -/
theorem c4_keep_original_when_not_randomly_substituted (cfg : ElectraConfig)
    (input : List ℕ) (mask rb rnb : List Bool) (rts : List ℕ)
    (h1 : mask.length = input.length) (h2 : rb.length = input.length)
    (h3 : rnb.length = input.length) (h4 : rts.length = input.length)
    (i : ℕ) (hi : i < input.length)
    (hnr : cfg.randomTokenProb = 0 ∨ rnb.getD i false = false
      ∨ rts.getD i 0 ∈ cfg.maskIgnoreTokenIds)
    (hm : mask.getD i false = true) (hr : rb.getD i false = false) :
    (corruptRow cfg input mask rb rnb rts).getD i 0 = input.getD i 0 := by
  rw [corruptRow_getD cfg input mask rb rnb rts h1 h2 h3 h4 i hi 0]
  rw [hm, hr]
  rw [if_neg (by simp)]
  rcases hnr with h | h | h
  · exact if_neg (fun hc => by rw [h] at hc; exact absurd hc.1 (lt_irrefl 0))
  · rw [h, if_neg (by simp)]
  · exact if_neg (fun hc => by
      have hb := (Bool.and_eq_true_iff.mp hc.2).2
      rw [decide_eq_true h] at hb
      simp at hb)

/-- Witness for the amended C4 theorem: defaults (`random_token_prob = 0`),
one position with mask true and replace draw false; the corrupted input keeps
the original token 5. -/
theorem c4_keep_original_witness :
    defaultElectraCfg.randomTokenProb = 0
      ∧ List.getD [true] 0 false = true ∧ List.getD [false] 0 false = false
      ∧ (corruptRow defaultElectraCfg [5] [true] [false] [true] [7]).getD 0 0
          = List.getD [5] 0 0 :=
  ⟨rfl, rfl, rfl,
    c4_keep_original_when_not_randomly_substituted defaultElectraCfg [5]
      [true] [false] [true] [7] rfl rfl rfl rfl 0 (by decide)
      (Or.inl rfl) rfl rfl⟩

/-- Claim C5: wherever both the mask and the replace draw are true, the
corrupted generator input holds `mask_token_id`.  The statement quantifies
over the random-substitution draws (`rnb`, `rts`), so the conclusion holds
whatever the random substitution did at that position: the
`masked_fill(mask * replace_prob, mask_token_id)` runs last and takes
precedence. -/
theorem c5_mask_and_replace_overwrites_with_mask_token (cfg : ElectraConfig)
    (input : List ℕ) (mask rb rnb : List Bool) (rts : List ℕ)
    (h1 : mask.length = input.length) (h2 : rb.length = input.length)
    (h3 : rnb.length = input.length) (h4 : rts.length = input.length)
    (i : ℕ) (hi : i < input.length)
    (hm : mask.getD i false = true) (hr : rb.getD i false = true) :
    (corruptRow cfg input mask rb rnb rts).getD i 0 = cfg.maskTokenId := by
  rw [corruptRow_getD cfg input mask rb rnb rts h1 h2 h3 h4 i hi 0]
  rw [hm, hr]
  simp

/-- Witness for C5 at a concrete input where the random substitution also
fired at the position (draw true, drawn token 7 not special): the mask token
still wins. -/
theorem c5_mask_and_replace_witness :
    List.getD [true] 0 false = true ∧ List.getD [true] 0 false = true
      ∧ (corruptRow randomSubCfg [5] [true] [true] [true] [7]).getD 0 0
          = randomSubCfg.maskTokenId :=
  ⟨rfl, rfl,
    c5_mask_and_replace_overwrites_with_mask_token randomSubCfg [5] [true]
      [true] [true] [7] rfl rfl rfl rfl 0 (by decide) rfl rfl⟩

/-- Pointwise reading of `gen_labels = input.masked_fill(~mask, pad)`: masked
positions keep the original token, all other positions read the pad id. -/
theorem genLabels_getD (input : List ℕ) (mask : List Bool) (pad i : ℕ) :
    (genLabels input mask pad).getD i pad
      = if mask.getD i false = true then input.getD i pad else pad := by
  induction input generalizing mask i with
  | nil =>
    simp only [genLabels, maskedFillL, List.zipWith_nil_left, List.getD_nil]
    cases hc : mask.getD i false <;> simp
  | cons x xs ih =>
    cases mask with
    | nil => simp [genLabels, maskedFillL]
    | cons b bs =>
      cases i with
      | zero => cases b <;> simp [genLabels, maskedFillL]
      | succ n =>
        simpa [genLabels, maskedFillL] using ih bs n

/-- Claim C7: the generator MLM labels equal the original input with every
non-masked position replaced by `pad_token_id` and masked positions keeping
their token (first conjunct, pointwise); in particular, for the input
`[CLS, 5, 6, 7, SEP]` (with `CLS = 2`, `SEP = 3`, `PAD = 0`) and positions
`{1,2,3}` masked, the label row is `[PAD, 5, 6, 7, PAD]` (second conjunct). -/
theorem c7_gen_labels_pad_outside_mask :
    (∀ (input : List ℕ) (mask : List Bool) (pad i : ℕ),
        (genLabels input mask pad).getD i pad
          = if mask.getD i false = true then input.getD i pad else pad)
      ∧ genLabels [2, 5, 6, 7, 3] [false, true, true, true, false] 0
          = [0, 5, 6, 7, 0] :=
  ⟨genLabels_getD, by decide⟩

/-! ### Losses and metrics (`Electra.forward`, lines 199-240).

Float tensors are modelled over `ℝ`; a `[B,T]` tensor is flattened to one
list of positions (all reductions in the source are whole-tensor means, which
agree with the flattened view). -/

/-- Per-position categorical cross entropy with logits:
`-log softmax(row)[t] = log (Σ_j exp row[j]) - row[t]`. -/
noncomputable def cePos (row : List ℝ) (t : ℕ) : ℝ :=
  Real.log ((row.map Real.exp).sum) - row.getD t 0

/-- `F.cross_entropy(logits.transpose(1,2), target, ignore_index=ignore)`
with the default mean reduction: the per-position losses of the positions
whose target is not `ignore`, averaged over those positions. -/
noncomputable def crossEntropyIgnore (logits : List (List ℝ)) (target : List ℕ)
    (ignore : ℕ) : ℝ :=
  (((logits.zip target).filter (fun p => p.2 != ignore)).map
      (fun p => cePos p.1 p.2)).sum
    / ((((logits.zip target).filter (fun p => p.2 != ignore)).length : ℕ) : ℝ)

/-- The logistic sigmoid. -/
noncomputable def sigmoidR (x : ℝ) : ℝ := 1 / (1 + Real.exp (-x))

/-- Binary cross entropy with logits at one position, label `y`:
`-(y log σ(x) + (1-y) log (1-σ(x)))`. -/
noncomputable def bceWithLogits (x y : ℝ) : ℝ :=
  -(y * Real.log (sigmoidR x) + (1 - y) * Real.log (1 - sigmoidR x))

/-- `F.binary_cross_entropy_with_logits` with the default mean reduction. -/
noncomputable def bceMean (xs ys : List ℝ) : ℝ :=
  ((xs.zip ys).map (fun p => bceWithLogits p.1 p.2)).sum
    / (((xs.zip ys).length : ℕ) : ℝ)

/-- `disc_labels = (input != disc_input).float()`: 1.0 where the corrupted
token differs from the original, 0.0 elsewhere. -/
noncomputable def discLabelsOf (input discInput : List ℕ) : List ℝ :=
  List.zipWith (fun o c => if o ≠ c then (1 : ℝ) else 0) input discInput

/-- `torch.nonzero(cond)` for a 1-D boolean tensor: the indices holding true,
in ascending order. -/
def nonzeroIndices (cond : List Bool) : List ℕ :=
  (List.range cond.length).filter (fun i => cond.getD i false)

/-- Integer-array indexing `xs[idxs]`. -/
def gatherD (xs : List α) (idxs : List ℕ) (d : α) : List α :=
  idxs.map (fun i => xs.getD i d)

/-- Boolean-mask indexing `xs[mask]` (also used for `logits[mask_indices]`:
row selection at the true positions). -/
def boolSelect (mask : List Bool) (xs : List α) : List α :=
  ((mask.zip xs).filter (fun p => p.1)).map (fun p => p.2)

/-- The discriminator loss of `Electra.forward`:
`non_padded_indices = torch.nonzero(input != pad_token_id)` and
`F.binary_cross_entropy_with_logits(disc_logits[npi], disc_labels[npi])`
(the `reshape_as` on the logits is a pure shape operation and is the
identity in the flattened view). -/
noncomputable def discLossOf (input : List ℕ) (discLogits discLabels : List ℝ)
    (pad : ℕ) : ℝ :=
  bceMean
    (gatherD discLogits (nonzeroIndices (input.map (fun x => x != pad))) 0)
    (gatherD discLabels (nonzeroIndices (input.map (fun x => x != pad))) 0)

/-- Modelled from the spec's words, as the refinement target for C6 (not from
the code): binary cross-entropy with logits against the label "corrupted
token differs from original", averaged over exactly the positions whose input
token is not pad. -/
noncomputable def discLossSpec (input discInput : List ℕ) (discLogits : List ℝ)
    (pad : ℕ) : ℝ :=
  ((((input.zip discInput).zip discLogits).filter (fun p => p.1.1 != pad)).map
      (fun p => bceWithLogits p.2 (if p.1.1 ≠ p.1.2 then 1 else 0))).sum
    / (((((input.zip discInput).zip discLogits).filter
          (fun p => p.1.1 != pad)).length : ℕ) : ℝ)

/-- Filtering a shifted index list: `filter` through `map Nat.succ`. -/
theorem filter_map_succ (l : List ℕ) (P : ℕ → Bool) :
    (l.map Nat.succ).filter P = (l.filter (fun i => P (i + 1))).map Nat.succ := by
  induction l with
  | nil => rfl
  | cons a l ih =>
    by_cases h : P (a + 1) = true
    · simp [h, ih]
    · simp only [List.map_cons, List.filter_cons]
      rw [if_neg h, if_neg h, ih]

/-- Gathering shifted indices from a cons skips the head. -/
theorem gatherD_map_succ (x : α) (xs : List α) (l : List ℕ) (d : α) :
    gatherD (x :: xs) (l.map Nat.succ) d = gatherD xs l d := by
  simp [gatherD, List.map_map, Function.comp_def, List.getD_cons_succ]

/-- Gathering at `torch.nonzero(cond)` equals boolean-mask selection, for
shape-matched tensors. -/
theorem gatherD_nonzeroIndices (cond : List Bool) (xs : List α) (d : α)
    (h : xs.length = cond.length) :
    gatherD xs (nonzeroIndices cond) d = boolSelect cond xs := by
  induction cond generalizing xs with
  | nil =>
    cases xs with
    | nil => rfl
    | cons x xs => simp at h
  | cons c cs ih =>
    cases xs with
    | nil => simp at h
    | cons x xs =>
      have hx : xs.length = cs.length := by simpa using h
      unfold nonzeroIndices
      rw [show (c :: cs).length = cs.length + 1 by simp, List.range_succ_eq_map]
      rw [List.filter_cons]
      rw [filter_map_succ]
      have hcut : (fun i => List.getD (c :: cs) (i + 1) false)
          = (fun i => cs.getD i false) := by
        funext i; simp [List.getD_cons_succ]
      rw [hcut]
      cases c with
      | true =>
        simp only [List.getD_cons_zero, if_pos rfl]
        show gatherD (x :: xs)
            (0 :: (List.filter (fun i => cs.getD i false) (List.range cs.length)).map
              Nat.succ) d
          = boolSelect (true :: cs) (x :: xs)
        unfold gatherD
        rw [List.map_cons]
        rw [show (List.map (fun i => (x :: xs).getD i d)
            ((List.filter (fun i => cs.getD i false) (List.range cs.length)).map
              Nat.succ))
          = gatherD (x :: xs)
              ((List.filter (fun i => cs.getD i false) (List.range cs.length)).map
                Nat.succ) d from rfl]
        rw [gatherD_map_succ]
        rw [show gatherD xs (List.filter (fun i => cs.getD i false)
            (List.range cs.length)) d = gatherD xs (nonzeroIndices cs) d from rfl]
        rw [ih xs hx]
        simp [boolSelect]
      | false =>
        simp only [List.getD_cons_zero]
        rw [if_neg (by simp)]
        rw [show (List.filter (fun i => cs.getD i false)
            (List.range cs.length)).map Nat.succ
          = (nonzeroIndices cs).map Nat.succ from rfl]
        rw [gatherD_map_succ]
        rw [ih xs hx]
        simp [boolSelect]

/-- The selected (logit, label) pairs of the code's gather-based
discriminator loss coincide, as a list, with the spec's filter of the zipped
(original, corrupted, logit) triples. -/
theorem discLoss_selection_eq (pad : ℕ) :
    ∀ (input discInput : List ℕ) (discLogits : List ℝ),
      discInput.length = input.length → discLogits.length = input.length →
      ((boolSelect (input.map (fun x => x != pad)) discLogits).zip
          (boolSelect (input.map (fun x => x != pad))
            (discLabelsOf input discInput)))
        = (((input.zip discInput).zip discLogits).filter
            (fun p => p.1.1 != pad)).map
            (fun p => (p.2, if p.1.1 ≠ p.1.2 then (1 : ℝ) else 0)) := by
  intro input
  induction input with
  | nil => intro discInput discLogits _ _; simp [boolSelect]
  | cons a as ih =>
    intro discInput discLogits hc hg
    cases discInput with
    | nil => simp at hc
    | cons b bs =>
      cases discLogits with
      | nil => simp at hg
      | cons x xs =>
        have hc' : bs.length = as.length := by simpa using hc
        have hg' : xs.length = as.length := by simpa using hg
        have ihx := ih bs xs hc' hg'
        by_cases hap : (a != pad) = true
        · simp [boolSelect, discLabelsOf, List.filter_cons] at ihx
          simp [boolSelect, discLabelsOf, hap, List.filter_cons, ihx]
        · simp [boolSelect, discLabelsOf, List.filter_cons] at ihx
          simp [boolSelect, discLabelsOf, hap, List.filter_cons, ihx]

/-- Claim C6: the discriminator label at every position equals "original
token differs from corrupted token" (first conjunct), and the code's
discriminator loss — BCE with logits over `disc_logits[non_padded_indices]`
and `disc_labels[non_padded_indices]` — equals the spec's description: BCE
with logits against that derived label, averaged over exactly the positions
whose input token is not `pad_token_id` (second conjunct). -/
theorem c6_disc_labels_and_loss (input discInput : List ℕ) (discLogits : List ℝ)
    (pad : ℕ) (hc : discInput.length = input.length)
    (hg : discLogits.length = input.length) :
    (∀ i, i < input.length →
        (discLabelsOf input discInput).getD i 0
          = if input.getD i 0 ≠ discInput.getD i 0 then (1 : ℝ) else 0)
      ∧ discLossOf input discLogits (discLabelsOf input discInput) pad
          = discLossSpec input discInput discLogits pad := by
  constructor
  · intro i hi
    unfold discLabelsOf
    rw [getD_zipWith_of_lt _ _ _ i 0 0 0 (by omega) (by omega)]
  · unfold discLossOf bceMean discLossSpec
    rw [gatherD_nonzeroIndices _ _ _ (by simp [hg])]
    rw [gatherD_nonzeroIndices _ _ _ (by simp [discLabelsOf, hc, hg])]
    rw [discLoss_selection_eq pad input discInput discLogits hc hg]
    rw [List.map_map, List.length_map]
    simp [Function.comp_def]

/-- Witness for C6 at a concrete input: `input = [5,0]`,
`disc_input = [6,0]`, logits `[2,3]`, pad 0; position 0 was replaced so its
label is 1, and the code loss equals the spec loss. -/
theorem c6_disc_labels_and_loss_witness :
    (discLabelsOf [5, 0] [6, 0]).getD 0 0
        = (if List.getD [5, 0] 0 0 ≠ List.getD [6, 0] 0 0 then (1 : ℝ) else 0)
      ∧ discLossOf [5, 0] [2, 3] (discLabelsOf [5, 0] [6, 0]) 0
          = discLossSpec [5, 0] [6, 0] [2, 3] 0 :=
  ⟨(c6_disc_labels_and_loss [5, 0] [6, 0] [2, 3] 0 rfl rfl).1 0 (by decide),
    (c6_disc_labels_and_loss [5, 0] [6, 0] [2, 3] 0 rfl rfl).2⟩

/-- If two logits tensors agree at every position whose target is not the
ignore index, the position lists selected by the cross-entropy agree as
lists. -/
theorem filter_zip_congr (ignore : ℕ) :
    ∀ (l1 l2 : List (List ℝ)) (target : List ℕ), l1.length = l2.length →
      (∀ i, i < l1.length → target.getD i ignore ≠ ignore →
        l1.getD i [] = l2.getD i []) →
      (l1.zip target).filter (fun p => p.2 != ignore)
        = (l2.zip target).filter (fun p => p.2 != ignore) := by
  intro l1
  induction l1 with
  | nil =>
    intro l2 target hlen _
    cases l2 with
    | nil => rfl
    | cons y ys => simp at hlen
  | cons x xs ih =>
    intro l2 target hlen h
    cases l2 with
    | nil => simp at hlen
    | cons y ys =>
      cases target with
      | nil => rfl
      | cons t ts =>
        have hlen' : xs.length = ys.length := by simpa using hlen
        have htail : ∀ i, i < xs.length → ts.getD i ignore ≠ ignore →
            xs.getD i [] = ys.getD i [] := by
          intro i hi ht
          simpa using h (i + 1) (by simpa using Nat.succ_lt_succ hi)
            (by simpa using ht)
        simp only [List.zip_cons_cons, List.filter_cons]
        by_cases hti : (t != ignore) = true
        · have hxy : x = y := by
            simpa using h 0 (by simp) (by simpa using hti)
          rw [hxy, hti, if_pos rfl, if_pos rfl, ih ys ts hlen' htail]
        · rw [if_neg (by simpa using hti), if_neg (by simpa using hti),
            ih ys ts hlen' htail]

/-- Claim C8 (two-run noninterference of the MLM loss): for two generator
logits tensors of the same shape that agree at all masked positions, the MLM
loss against `gen_labels = input.masked_fill(~mask, pad)` with
`ignore_index = pad` is identical — logits at non-masked positions (whose
label is the pad id, hence ignored) cannot influence `mlm_loss`. -/
theorem c8_mlm_loss_noninterference (input : List ℕ) (mask : List Bool)
    (pad : ℕ) (l1 l2 : List (List ℝ)) (hlen : l1.length = l2.length)
    (h : ∀ i, i < l1.length → mask.getD i false = true →
      l1.getD i [] = l2.getD i []) :
    crossEntropyIgnore l1 (genLabels input mask pad) pad
      = crossEntropyIgnore l2 (genLabels input mask pad) pad := by
  have hsel : (l1.zip (genLabels input mask pad)).filter (fun p => p.2 != pad)
      = (l2.zip (genLabels input mask pad)).filter (fun p => p.2 != pad) := by
    refine filter_zip_congr pad l1 l2 (genLabels input mask pad) hlen ?_
    intro i hi ht
    cases hb : mask.getD i false with
    | false =>
      exfalso
      rw [genLabels_getD, hb] at ht
      simp at ht
    | true => exact h i hi hb
  unfold crossEntropyIgnore
  rw [hsel]

/-- Witness for C8 at concrete inputs: `mask = [true, false]`; the two logits
tensors agree at the masked position 0 and differ at the unmasked position 1,
and the losses coincide. -/
theorem c8_mlm_loss_noninterference_witness :
    crossEntropyIgnore [[1, 2], [3, 4]] (genLabels [5, 6] [true, false] 0) 0
      = crossEntropyIgnore [[1, 2], [9, 9]] (genLabels [5, 6] [true, false] 0) 0 :=
  c8_mlm_loss_noninterference [5, 6] [true, false] 0 [[1, 2], [3, 4]]
    [[1, 2], [9, 9]] rfl
    (by
      intro i hi hm
      match i with
      | 0 => rfl
      | 1 => exact absurd hm (by decide)
      | n + 2 => exact absurd hi (by simp))

/-- `torch.sign`. -/
noncomputable def signR (x : ℝ) : ℝ := if 0 < x then 1 else if x < 0 then -1 else 0

/-- `torch.round`: round to nearest integer, halves to the even neighbour. -/
noncomputable def roundHalfEven (x : ℝ) : ℤ :=
  if Int.fract x = 1 / 2 then (if Even ⌊x⌋ then ⌊x⌋ else ⌊x⌋ + 1) else round x

/-- `disc_predictions = torch.round((torch.sign(disc_logits) + 1.0) * 0.5)`. -/
noncomputable def discPredictionsOf (discLogits : List ℝ) : List ℝ :=
  discLogits.map (fun x => ((roundHalfEven ((signR x + 1) * (1 / 2))) : ℝ))

/-- The prediction at a position is 1 exactly when the logit is positive
(at logit 0 the rounded value `round(0.5)` is 0 by round-half-to-even). -/
theorem discPredictionsOf_eq (l : List ℝ) :
    discPredictionsOf l = l.map (fun x => if 0 < x then (1 : ℝ) else 0) := by
  unfold discPredictionsOf
  have hfg : (fun x => ((roundHalfEven ((signR x + 1) * (1 / 2))) : ℝ))
      = (fun x : ℝ => if 0 < x then (1 : ℝ) else 0) := by
    funext x
    by_cases h1 : 0 < x
    · rw [if_pos h1]
      have : (signR x + 1) * (1 / 2) = 1 := by rw [signR, if_pos h1]; norm_num
      rw [this, roundHalfEven]
      rw [if_neg (by rw [Int.fract_one]; norm_num)]
      simp
    · rw [if_neg h1]
      by_cases h2 : x < 0
      · have : (signR x + 1) * (1 / 2) = 0 := by
          rw [signR, if_neg h1, if_pos h2]; norm_num
        rw [this, roundHalfEven]
        rw [if_neg (by rw [Int.fract_zero]; norm_num)]
        simp
      · have : (signR x + 1) * (1 / 2) = 1 / 2 := by
          rw [signR, if_neg h1, if_neg h2]; norm_num
        rw [this, roundHalfEven]
        rw [if_pos (Int.fract_eq_self.mpr ⟨by norm_num, by norm_num⟩)]
        rw [if_pos (by rw [show ⌊(1 / 2 : ℝ)⌋ = 0 by norm_num]; exact even_zero)]
        rw [show ⌊(1 / 2 : ℝ)⌋ = 0 by norm_num]
        simp
  rw [hfg]

/-- `(a == b).float().mean()` on two same-shape tensors: the average of the
per-position equality indicators. -/
noncomputable def matchMean [DecidableEq α] (xs ys : List α) : ℝ :=
  ((xs.zip ys).map (fun p => if p.1 = p.2 then (1 : ℝ) else 0)).sum
    / (((xs.zip ys).length : ℕ) : ℝ)

/-- Number of positions where two same-shape tensors agree. -/
def countEqPairs [DecidableEq α] (xs ys : List α) : ℕ :=
  ((xs.zip ys).filter (fun p => decide (p.1 = p.2))).length

/-- The balanced discriminator accuracy of `Electra.forward`:
`0.5 * (disc_labels[mask] == disc_predictions[mask]).float().mean()
 + 0.5 * (disc_labels[~mask] == disc_predictions[~mask]).float().mean()`. -/
noncomputable def discAccOf (discLabels discPreds : List ℝ) (mask : List Bool) : ℝ :=
  1 / 2 * matchMean (boolSelect mask discLabels) (boolSelect mask discPreds)
    + 1 / 2 * matchMean (boolSelect (mask.map (fun b => !b)) discLabels)
        (boolSelect (mask.map (fun b => !b)) discPreds)

/-- Length of a boolean-mask selection: the number of true mask entries. -/
theorem boolSelect_length (mask : List Bool) (xs : List α)
    (h : xs.length = mask.length) :
    (boolSelect mask xs).length = countTrue mask := by
  induction mask generalizing xs with
  | nil => simp [boolSelect, countTrue]
  | cons b bs ih =>
    cases xs with
    | nil => simp at h
    | cons x xs =>
      have h' : xs.length = bs.length := by simpa using h
      cases b with
      | true => simp [boolSelect, countTrue, List.count_cons] at ih ⊢; rw [ih xs h']
      | false => simp [boolSelect, countTrue, List.count_cons] at ih ⊢; rw [ih xs h']

/-- Sum of the equality indicators is the number of agreeing pairs. -/
theorem sum_indicator_eq_countEq [DecidableEq α] :
    ∀ (l : List (α × α)),
      ((l.map (fun p => if p.1 = p.2 then (1 : ℝ) else 0)).sum)
        = (((l.filter (fun p => decide (p.1 = p.2))).length : ℕ) : ℝ) := by
  intro l
  induction l with
  | nil => simp
  | cons p ps ih =>
    by_cases h : p.1 = p.2
    · simp [h, ih, add_comm]
    · simp [h, ih]

/-- `matchMean` as a ratio of counts. -/
theorem matchMean_eq_count [DecidableEq α] (xs ys : List α) :
    matchMean xs ys
      = ((countEqPairs xs ys : ℕ) : ℝ) / (((xs.zip ys).length : ℕ) : ℝ) := by
  unfold matchMean countEqPairs
  rw [sum_indicator_eq_countEq]

/-- The agreement rate of a nonempty tensor with itself is 1. -/
theorem matchMean_self [DecidableEq α] (xs : List α) (h : xs ≠ []) :
    matchMean xs xs = 1 := by
  unfold matchMean
  have hz : ∀ (l : List α),
      ((l.zip l).map (fun p => if p.1 = p.2 then (1 : ℝ) else 0))
        = List.replicate l.length 1 := by
    intro l
    induction l with
    | nil => rfl
    | cons a as ih => simp [ih, List.replicate_succ]
  rw [hz xs, List.sum_replicate, List.length_zip, Nat.min_self]
  have hn : (0 : ℕ) < xs.length := List.length_pos.mpr h
  rw [nsmul_eq_mul, mul_one]
  exact div_self (Nat.cast_ne_zero.mpr (Nat.pos_iff_ne_zero.mp hn))

/-- Claim C9: for EVERY same-shape batch, the reported `disc_acc` is the
balanced accuracy
`0.5 * (agreement count / #masked) + 0.5 * (agreement count / #unmasked)` —
the agreement rates of the two label classes, not an overall accuracy (first
conjunct, which assumes nothing beyond the tensor shapes); and when,
additionally, the sign-derived discriminator predictions equal the labels
everywhere on a batch with at least one masked and one unmasked position,
`disc_acc = 1` (second conjunct). -/
theorem c9_disc_acc_balanced (mask : List Bool) (discLabels discLogits : List ℝ)
    (hl : discLabels.length = mask.length) (hg : discLogits.length = mask.length) :
    (discAccOf discLabels (discPredictionsOf discLogits) mask
        = 1 / 2 * (((countEqPairs (boolSelect mask discLabels)
              (boolSelect mask (discPredictionsOf discLogits)) : ℕ) : ℝ)
            / ((countTrue mask : ℕ) : ℝ))
          + 1 / 2 * (((countEqPairs (boolSelect (mask.map (fun b => !b)) discLabels)
              (boolSelect (mask.map (fun b => !b)) (discPredictionsOf discLogits)) : ℕ) : ℝ)
            / ((countTrue (mask.map (fun b => !b)) : ℕ) : ℝ)))
      ∧ (0 < countTrue mask → 0 < countTrue (mask.map (fun b => !b)) →
          discPredictionsOf discLogits = discLabels →
          discAccOf discLabels (discPredictionsOf discLogits) mask = 1) := by
  have hp : (discPredictionsOf discLogits).length = mask.length := by
    unfold discPredictionsOf
    rw [List.length_map]
    exact hg
  have hl' : discLabels.length = (mask.map (fun b => !b)).length := by
    rw [List.length_map]; exact hl
  have hp' : (discPredictionsOf discLogits).length = (mask.map (fun b => !b)).length := by
    rw [List.length_map]; exact hp
  have e1 : (boolSelect mask discLabels).length = countTrue mask :=
    boolSelect_length mask discLabels hl
  have e2 : (boolSelect mask (discPredictionsOf discLogits)).length = countTrue mask :=
    boolSelect_length mask _ hp
  have e3 : (boolSelect (mask.map (fun b => !b)) discLabels).length
      = countTrue (mask.map (fun b => !b)) :=
    boolSelect_length _ discLabels hl'
  have e4 : (boolSelect (mask.map (fun b => !b)) (discPredictionsOf discLogits)).length
      = countTrue (mask.map (fun b => !b)) :=
    boolSelect_length _ _ hp'
  constructor
  · unfold discAccOf
    rw [matchMean_eq_count, matchMean_eq_count]
    rw [List.length_zip, List.length_zip, e1, e2, e3, e4, Nat.min_self, Nat.min_self]
  · intro hm hu hc
    rw [hc]
    unfold discAccOf
    rw [matchMean_self _ (by
        intro hnil
        rw [hnil] at e1
        simp at e1
        omega),
      matchMean_self _ (by
        intro hnil
        rw [hnil] at e3
        simp at e3
        omega)]
    norm_num

/-- Witness for C9 at two concrete 4-position batches (one masked, three
unmasked positions).  The first conjunct instantiates the balanced-accuracy
formula on an IMPERFECTLY classified batch (labels `[1,0,0,1]`, predictions
`[1,0,0,0]`: agreement 1/1 on the masked class and 2/3 on the unmasked class,
so `disc_acc = 5/6`, different from the overall accuracy 3/4); the second is
the spec's perfectly classified scenario, where `disc_acc = 1`. -/
theorem c9_disc_acc_balanced_witness :
    (discAccOf [1, 0, 0, 1] (discPredictionsOf [1, -1, -1, -1])
          [true, false, false, false]
        = 1 / 2 * (((countEqPairs
              (boolSelect [true, false, false, false] [1, 0, 0, 1])
              (boolSelect [true, false, false, false]
                (discPredictionsOf [1, -1, -1, -1])) : ℕ) : ℝ)
            / ((countTrue [true, false, false, false] : ℕ) : ℝ))
          + 1 / 2 * (((countEqPairs
              (boolSelect ([true, false, false, false].map (fun b => !b))
                [1, 0, 0, 1])
              (boolSelect ([true, false, false, false].map (fun b => !b))
                (discPredictionsOf [1, -1, -1, -1])) : ℕ) : ℝ)
            / ((countTrue ([true, false, false, false].map (fun b => !b)) : ℕ) : ℝ)))
      ∧ discAccOf [1, 0, 0, 0] (discPredictionsOf [1, -1, -1, -1])
          [true, false, false, false] = 1 :=
  ⟨(c9_disc_acc_balanced [true, false, false, false] [1, 0, 0, 1]
      [1, -1, -1, -1] rfl rfl).1,
    (c9_disc_acc_balanced [true, false, false, false] [1, 0, 0, 0]
      [1, -1, -1, -1] rfl rfl).2 (by decide) (by decide)
      (by rw [discPredictionsOf_eq]; norm_num)⟩

/-! ### The full forward pass and its fail-fast configuration check -/

/-- `torch.argmax` over one row: index of the (first) maximal entry. -/
noncomputable def argmaxIdx : List ℝ → ℕ
  | [] => 0
  | x :: xs =>
    (xs.enum.foldl (fun b p => if b.2 < p.2 then (p.1 + 1, p.2) else b) ((0 : ℕ), x)).1

/-- `disc_input[mask_indices] = sampled`: walk the row, consuming one sampled
token at each true mask position. -/
def scatterAtMask : List ℕ → List Bool → List ℕ → List ℕ
  | [], _, _ => []
  | _ :: xs, true :: bs, s :: ss => s :: scatterAtMask xs bs ss
  | x :: xs, true :: bs, [] => x :: scatterAtMask xs bs []
  | x :: xs, false :: bs, ss => x :: scatterAtMask xs bs ss
  | xs, [], _ => xs

/-- The random draws consumed by one `Electra.forward` call, in source order:
the replace-probability Bernoulli mask, the `torch.rand` row of the masking
engine, the random-token Bernoulli mask, the drawn random tokens, and the
per-masked-position Gumbel noise rows. -/
structure ForwardRandomness where
  replaceBern : List Bool
  maskRand : List ℚ
  randomBern : List Bool
  randomTokens : List ℕ
  gumbel : List (List ℝ)

/-- The `Results` namedtuple returned by `Electra.forward`. -/
structure ElectraResults where
  loss : ℝ
  mlmLoss : ℝ
  discLoss : ℝ
  genAcc : ℝ
  discAcc : ℝ
  discLabels : List ℝ
  discPredictions : List ℝ

/-- `Electra.forward` on one row.  The `assert self.num_tokens is not None`
inside the `random_token_prob > 0` branch is modelled as the error return;
every statement before it (the Bernoulli draws, `no_mask`, `mask`,
`masked_input = input.clone()`) is a pure computation with no observable
effect, so hoisting the guard to the front preserves the observable
behaviour: when it fires, no random substitution happens and neither the
generator nor the discriminator is invoked (the result does not depend on
them at all). -/
noncomputable def electraForward (cfg : ElectraConfig)
    (generator : List ℕ → List (List ℝ)) (discriminator : List ℕ → List ℝ)
    (input : List ℕ) (rnd : ForwardRandomness) : Except String ElectraResults :=
  if 0 < cfg.randomTokenProb ∧ cfg.numTokens = none then
    Except.error
      "Number of tokens (num_tokens) must be passed to Electra for randomizing tokens during masked language modeling"
  else
    let mask := electraMaskRow cfg input rnd.maskRand
    let maskedInput :=
      corruptRow cfg input mask rnd.replaceBern rnd.randomBern rnd.randomTokens
    let genLbls := genLabels input mask cfg.padTokenId
    let logits := generator maskedInput
    let mlmLossV := crossEntropyIgnore logits genLbls cfg.padTokenId
    let sampled := List.zipWith
      (fun row noise =>
        argmaxIdx (List.zipWith
          (fun l g => l / ((cfg.temperature : ℚ) : ℝ) + g) row noise))
      (boolSelect mask logits) rnd.gumbel
    let discInput := scatterAtMask input mask sampled
    let discLabelsV := discLabelsOf input discInput
    let discLogits := discriminator discInput
    let discLossV := discLossOf input discLogits discLabelsV cfg.padTokenId
    let genPredictions := logits.map argmaxIdx
    let discPreds := discPredictionsOf discLogits
    let genAccV := matchMean (boolSelect mask genLbls) (boolSelect mask genPredictions)
    let discAccV := discAccOf discLabelsV discPreds mask
    Except.ok
      ⟨((cfg.genWeight : ℚ) : ℝ) * mlmLossV + ((cfg.discWeight : ℚ) : ℝ) * discLossV,
        mlmLossV, discLossV, genAccV, discAccV, discLabelsV, discPreds⟩

/-- Claim C10: whenever `random_token_prob > 0` and no vocabulary size was
supplied, `Electra.forward` fails fast with the assertion message naming
`num_tokens`, for EVERY generator, discriminator, input and randomness — in
particular the failure precedes (and is independent of) any random
substitution or model invocation, and nothing catches or retries it: the
error is the returned outcome. -/
theorem c10_forward_asserts_num_tokens (cfg : ElectraConfig)
    (generator : List ℕ → List (List ℝ)) (discriminator : List ℕ → List ℝ)
    (input : List ℕ) (rnd : ForwardRandomness)
    (h1 : 0 < cfg.randomTokenProb) (h2 : cfg.numTokens = none) :
    electraForward cfg generator discriminator input rnd
      = Except.error
          "Number of tokens (num_tokens) must be passed to Electra for randomizing tokens during masked language modeling" := by
  unfold electraForward
  rw [if_pos ⟨h1, h2⟩]

/-- An `Electra` with `random_token_prob = 0.1` and NO vocabulary size. -/
def noVocabCfg : ElectraConfig :=
  electraInit none (15 / 100) (85 / 100) (1 / 10) 4 0 [] 50 1 1

/-- Witness for C10 at a concrete misconfiguration. -/
theorem c10_forward_asserts_num_tokens_witness :
    0 < noVocabCfg.randomTokenProb ∧ noVocabCfg.numTokens = none
      ∧ electraForward noVocabCfg (fun _ => []) (fun _ => []) [5]
          ⟨[], [], [], [], []⟩
        = Except.error
            "Number of tokens (num_tokens) must be passed to Electra for randomizing tokens during masked language modeling" :=
  ⟨by norm_num [noVocabCfg, electraInit], rfl,
    c10_forward_asserts_num_tokens noVocabCfg (fun _ => []) (fun _ => []) [5]
      ⟨[], [], [], [], []⟩ (by norm_num [noVocabCfg, electraInit]) rfl⟩
